import Mathlib

/-!
# Verification of the NIKA dataset-analytics core

A shallow embedding of the analytics engine:

* the aggregation worker (`onmessage`: grouping, numeric coercion,
  aggregation, sorting, truncation, error reporting);
* the summary computer `calculateMetricsFromData` (missing values,
  duplicate detection over non-all-null rows);
* the `Overview` helpers `computeQualityScore`, `pickQuickColumns`,
  `buildHistogram`, `pearson` and `buildCorrelation`.

JavaScript numbers are modelled as exact rationals (`ℚ`); the non-finite
values `NaN`/`Infinity` are represented by `Option.none` at coercion sites.
Correlation arithmetic, which involves square roots, is modelled over `ℝ`.
-/

namespace NIKA

/-- JavaScript scalar values as they occur in dataset rows: `null`
(`undefined` is modelled by `Option.none` at property-lookup sites),
booleans, numbers and strings. -/
inductive JSVal where
  | vnull : JSVal
  | vbool : Bool → JSVal
  | vnum : ℚ → JSVal
  | vstr : String → JSVal
deriving DecidableEq

/-- Rendering of a rational as a JS number string: exact for integral values
(matching `String(n)` on integers, the only case the verified scenarios
exercise); non-integral rationals are rendered as `num/den`, abstracting JS
float formatting. -/
def ratToString (q : ℚ) : String :=
  if q.den = 1 then toString q.num else toString q.num ++ "/" ++ toString q.den

/-- JS `String(v)` coercion. -/
def jsValToString : JSVal → String
  | .vnull => "null"
  | .vbool b => if b then "true" else "false"
  | .vnum q => ratToString q
  | .vstr s => s

/-- Accumulate decimal digits into a natural number; `none` if the character
list is empty or contains a non-digit. -/
def digitsToNat : List Char → Option ℕ
  | [] => none
  | cs =>
    cs.foldl
      (fun acc c =>
        acc.bind fun n => if c.isDigit then some (10 * n + (c.toNat - 48)) else none)
      (some 0)

/-- Parse an optionally signed digit list as an integer (used for the
exponent part of a JS numeric literal). -/
def parseSignedInt : List Char → Option ℤ
  | '-' :: rest => (digitsToNat rest).map (fun n => -(n : ℤ))
  | '+' :: rest => (digitsToNat rest).map (fun n => (n : ℤ))
  | cs => (digitsToNat cs).map (fun n => (n : ℤ))

/-- Mantissa of a JS decimal literal: `intPart[.fracPart]` with at least one
digit overall (`"1."` and `".5"` are legal, `"."` alone is not; a second `.`
makes the digit parse fail, as the split-based JS parse would). -/
def parseMantissa (cs : List Char) : Option ℚ :=
  let ip := cs.takeWhile (fun c => c ≠ '.')
  match cs.dropWhile (fun c => c ≠ '.') with
  | [] => (digitsToNat ip).map (fun n => (n : ℚ))
  | _ :: frac =>
    if ip = [] ∧ frac = [] then none
    else if ip = [] then (digitsToNat frac).map (fun n => (n : ℚ) / 10 ^ frac.length)
    else if frac = [] then (digitsToNat ip).map (fun n => (n : ℚ))
    else
      (digitsToNat ip).bind fun ni =>
        (digitsToNat frac).map fun nf => (ni : ℚ) + (nf : ℚ) / 10 ^ frac.length

/-- JS `Number(string)` on a trimmed non-empty character list, covering
signed decimal literals with optional exponent (`e`/`E`). `none` models
`NaN`. Hex/binary literals and `"Infinity"` (non-finite, outside the
rational model) also map to `none`; no verified property depends on them. -/
def parseJSNumber (cs : List Char) : Option ℚ :=
  let sgn : ℚ := if cs.head? = some '-' then -1 else 1
  let cs1 := match cs with
    | '-' :: rest => rest
    | '+' :: rest => rest
    | other => other
  let m := cs1.takeWhile (fun c => c ≠ 'e' ∧ c ≠ 'E')
  match cs1.dropWhile (fun c => c ≠ 'e' ∧ c ≠ 'E') with
  | [] => (parseMantissa m).map (fun q => sgn * q)
  | _ :: ex =>
    (parseMantissa m).bind fun qm =>
      (parseSignedInt ex).map fun ze => sgn * qm * 10 ^ ze

/-- JS `String.prototype.trim` on a character list. -/
def trimChars (cs : List Char) : List Char :=
  ((cs.dropWhile Char.isWhitespace).reverse.dropWhile Char.isWhitespace).reverse

/-- JS `Number(x)` coercion of a property-lookup result (`none` on the input
side = the property was absent / `undefined`; `none` on the output side =
`NaN`). Whitespace-only strings coerce to `0`, as in JS. -/
def jsToNumber : Option JSVal → Option ℚ
  | none => none
  | some .vnull => some 0
  | some (.vbool b) => some (if b then 1 else 0)
  | some (.vnum q) => some q
  | some (.vstr s) =>
    if trimChars s.toList = [] then some 0 else parseJSNumber (trimChars s.toList)

/-- JS `Number(x) || 0`: `NaN` collapses to `0` (and `0`/`-0` stay `0`). -/
def numOr0 (o : Option JSVal) : ℚ := (jsToNumber o).getD 0

/-- JS truthiness of a `JSVal`. -/
def falsy : JSVal → Bool
  | .vnull => true
  | .vbool b => !b
  | .vnum q => decide (q = 0)
  | .vstr s => decide (s = "")

/-- JS `x || default` applied to an optional field (`none` = `undefined`). -/
def jsOr (o : Option JSVal) (d : JSVal) : JSVal :=
  match o with
  | none => d
  | some v => if falsy v then d else v

/-- A row: a JS object, modelled as an insertion-ordered association list
with distinct keys. -/
abbrev Row := List (String × JSVal)

/-- JS property read `row[k]`; `none` models `undefined`. -/
def rowGet (r : Row) (k : String) : Option JSVal :=
  (r.find? (fun p => p.1 == k)).map (fun p => p.2)

/-- JS `ToPropertyKey`: the string key used when an arbitrary (possibly
`undefined`) value is used in a computed property access. -/
def propKey : Option JSVal → String
  | none => "undefined"
  | some v => jsValToString v

/-! ## The aggregation worker (`self.onmessage` in the worker source) -/

/-- One aggregated chart point `{name, value, size}`. -/
structure AggPoint where
  name : String
  value : ℚ
  size : ℕ
deriving DecidableEq

/-- One in-progress group `{name, value, count}`; `gname` is the raw key
value of the first row that opened the group (the worker stores the raw value
and applies `String(...)` only when emitting points). -/
structure Group where
  gname : JSVal
  value : ℚ
  count : ℕ
deriving DecidableEq

/-- Chart configuration as received by the worker; each field may be absent
(`undefined`). Field values are arbitrary JS scalars: the worker only
compares them against string constants and applies `|| default`. -/
structure ChartConfig where
  xAxis : Option JSVal
  yAxis : Option JSVal
  aggregation : Option JSVal
  sortKey : Option JSVal
  sortDirection : Option JSVal
deriving DecidableEq

/-- The raw grouping value of a row: `row?.[xAxis] ?? 'Unknown'` — only
`undefined` and `null` fall back to `'Unknown'`. -/
def rowKeyVal (xk : String) (r : Row) : JSVal :=
  match rowGet r xk with
  | none => .vstr "Unknown"
  | some .vnull => .vstr "Unknown"
  | some v => v

/-- The string property key a row is grouped under. -/
def rowKeyStr (xk : String) (r : Row) : String := jsValToString (rowKeyVal xk r)

/-- The coerced numeric contribution of a row: `Number(row?.[yAxis]) || 0`. -/
def rowYVal (yk : String) (r : Row) : ℚ := numOr0 (rowGet r yk)

/-- Process one row into the insertion-ordered group table
(`if (!groups[x]) groups[x] = …; groups[x].value += y; groups[x].count += 1`). -/
def bump (xk yk : String) (gs : List (String × Group)) (r : Row) :
    List (String × Group) :=
  let k := rowKeyStr xk r
  if gs.any (fun p => p.1 == k) then
    gs.map (fun p =>
      if p.1 = k then (p.1, Group.mk p.2.gname (p.2.value + rowYVal yk r) (p.2.count + 1))
      else p)
  else gs ++ [(k, Group.mk (rowKeyVal xk r) (rowYVal yk r) 1)]

/-- The grouping loop of the worker over all rows. -/
def buildGroups (xk yk : String) (rows : List Row) : List (String × Group) :=
  rows.foldl (bump xk yk) []

/-- JS array-index property keys: canonical decimal strings of naturals below
`2^32 - 1`. `Object.values` enumerates these first, in ascending numeric
order, before the remaining string keys in insertion order
(ECMA-262 `OrdinaryOwnPropertyKeys`). -/
def arrayIndex? (s : String) : Option ℕ :=
  let cs := s.toList
  if cs ≠ [] ∧ cs.all Char.isDigit ∧ (s = "0" ∨ cs.head? ≠ some '0') then
    (digitsToNat cs).bind fun n => if n < 4294967295 then some n else none
  else none

/-- `Object.values(groups)` in ECMA-262 own-property order, keeping each
group paired with its key for specification purposes (the worker itself uses
only the values). -/
def objectValuesPairs (gs : List (String × Group)) : List (String × Group) :=
  let idxed := gs.filterMap (fun p => (arrayIndex? p.1).map (fun n => (n, p)))
  let nonIdx := gs.filter (fun p => (arrayIndex? p.1).isNone)
  ((idxed.insertionSort (fun a b => a.1 ≤ b.1)).map (fun q => q.2)) ++ nonIdx

/-- Division of an accumulated sum by a group member count. `Rat.inv`-based
division (`/` on `ℚ`) is `@[irreducible]` in this toolchain, which blocks
kernel evaluation at concrete inputs; this equivalent formulation (proved
equal to `a / n` in `divNat_eq_div`, for every `n` including 0) keeps the
embedding executable. -/
def divNat (a : ℚ) (n : ℕ) : ℚ := mkRat a.num (a.den * n)

/-- Emit one point from a finished group:
`value = aggregation === 'average' && count > 0 ? value / count : value`,
`size = count`, `name = String(g.name)`. -/
def pointOf (aggregation : JSVal) (g : Group) : AggPoint :=
  AggPoint.mk (jsValToString g.gname)
    (if aggregation = .vstr "average" ∧ 0 < g.count then divNat g.value g.count
     else g.value)
    g.count

/-- The worker's sort step: JS `Array.prototype.sort` is stable and, for a
total transitive comparator, produces the unique stably-sorted permutation;
it is modelled by the stable `List.insertionSort` with the relation
"the comparator returns ≤ 0", i.e. `a` may precede `b`. `localeCompare` is
modelled as code-point string order, a deterministic total order standing in
for locale-sensitive collation; no verified property depends on the
collation itself. -/
def sortPoints (sortKey sortDirection : JSVal) (pts : List AggPoint) : List AggPoint :=
  if sortKey = .vstr "y" then
    if sortDirection = .vstr "asc" then pts.insertionSort (fun a b => a.value ≤ b.value)
    else pts.insertionSort (fun a b => b.value ≤ a.value)
  else
    if sortDirection = .vstr "asc" then pts.insertionSort (fun a b => a.name ≤ b.name)
    else pts.insertionSort (fun a b => b.name ≤ a.name)

/-- The unsorted point list, in `Object.values` enumeration order. -/
def basePoints (rows : List Row) (cfg : Option ChartConfig) : List AggPoint :=
  let xk := propKey (cfg.bind ChartConfig.xAxis)
  let yk := propKey (cfg.bind ChartConfig.yAxis)
  let aggregation := jsOr (cfg.bind ChartConfig.aggregation) (.vstr "sum")
  (objectValuesPairs (buildGroups xk yk rows)).map (fun p => pointOf aggregation p.2)

/-- The fully sorted point list, before truncation. -/
def sortedPoints (rows : List Row) (cfg : Option ChartConfig) : List AggPoint :=
  sortPoints (jsOr (cfg.bind ChartConfig.sortKey) (.vstr "y"))
    (jsOr (cfg.bind ChartConfig.sortDirection) (.vstr "desc"))
    (basePoints rows cfg)

/-- The worker's aggregation pipeline on an array payload: group, aggregate,
sort, then `result.slice(0, 1000)`. -/
def aggregate (rows : List Row) (cfg : Option ChartConfig) : List AggPoint :=
  (sortedPoints rows cfg).take 1000

/-- The `data` field of a worker request: either a JS array of rows or some
non-array value (which the worker rejects via `Array.isArray`). -/
inductive WorkerData where
  | arr : List Row → WorkerData
  | nonArr : JSVal → WorkerData
deriving DecidableEq

/-- A worker request message `{data, config}`, each field possibly absent. -/
structure WorkerRequest where
  data : Option WorkerData
  config : Option ChartConfig

/-- A worker response message. The worker posts exactly one of these per
request: this is captured by `onmessage` being a total function into this
type. -/
inductive WorkerResponse where
  | success : List AggPoint → WorkerResponse
  | error : String → WorkerResponse
deriving DecidableEq

/-- The worker's `onmessage` handler. The surrounding `try`/`catch` (which
maps any internal exception to `{status:'error'}`) is modelled by totality:
every reachable operation of the handler body is total in this embedding, so
the only error outcome is the explicit non-array check. -/
def onmessage (req : WorkerRequest) : WorkerResponse :=
  match req.data with
  | some (.arr rows) => .success (aggregate rows req.config)
  | _ => .error "No data array provided"

/-! ## Summary computer (`calculateMetricsFromData` in `DataContext.tsx`) -/

/-- A column descriptor. Metric computation uses only `name`; the quick-chart
picker additionally reads the declared `type` string (`ctype`, `none` =
absent). -/
structure Column where
  name : String
  ctype : Option String
deriving DecidableEq

/-- A dataset `{columns, data}`. -/
structure Dataset where
  columns : List Column
  data : List Row
deriving DecidableEq

/-- The summary produced by `calculateMetricsFromData`. The `memoryUsage`
label (a byte-size bucket of a `Blob` of the JSON encoding) is display-only,
participates in no claim, and is outside the value model, so it is omitted
rather than stubbed. -/
structure DataSummary where
  totalRows : ℕ
  totalColumns : ℕ
  missingValues : ℕ
  duplicates : ℤ
deriving DecidableEq

/-- The missing-value test of the summary computer:
`value === null || value === undefined || value === '' || value === 'null'`. -/
def isMissing : Option JSVal → Bool
  | none => true
  | some .vnull => true
  | some (.vstr s) => s == "" || s == "null"
  | _ => false

/-- A row is all-null iff every declared column's value is missing. -/
def allNullRow (cols : List Column) (r : Row) : Bool :=
  cols.all (fun c => isMissing (rowGet r c.name))

/-- Canonical serialization of a row for duplicate detection: models
`JSON.stringify(rowData)` where `rowData` holds every declared column in
column order and `JSON.stringify` drops `undefined`-valued keys. Over this
value domain distinct key/value lists produce distinct JSON strings, so the
list itself serves as the canonical key. -/
def canonRow (cols : List Column) (r : Row) : List (String × JSVal) :=
  cols.filterMap (fun c => (rowGet r c.name).map (fun v => (c.name, v)))

/-- `calculateMetricsFromData` on a non-null dataset. Note the duplicate
count subtracts the distinct-serialization count of the *non-all-null* rows
from the length of the *whole* data array. -/
def calculateMetricsFromData (ds : Dataset) : DataSummary :=
  if ds.data.length = 0 then
    DataSummary.mk 0 ds.columns.length 0 0
  else
    let missing :=
      (ds.data.map (fun r => ds.columns.countP (fun c => isMissing (rowGet r c.name)))).sum
    let hashKeys := (ds.data.filter (fun r => !allNullRow ds.columns r)).map (canonRow ds.columns)
    DataSummary.mk ds.data.length ds.columns.length missing
      ((ds.data.length : ℤ) - (hashKeys.dedup.length : ℤ))

/-- Refinement target for the duplicate count, following the spec's words:
`(number of non-all-null rows) - (number of distinct canonical serializations
of the non-all-null rows)`. -/
def specDuplicates (ds : Dataset) : ℤ :=
  let nonNull := ds.data.filter (fun r => !allNullRow ds.columns r)
  (nonNull.length : ℤ) - ((nonNull.map (canonRow ds.columns)).dedup.length : ℤ)

/-! ## Quality scorer (`computeQualityScore` in `Overview.tsx`) -/

/-- The summary fields read by `computeQualityScore`, as JS numbers
(modelled by `ℚ`; the destructuring defaults `= 0` concern absent fields,
which this model treats as present). -/
structure QSummary where
  totalRows : ℚ
  missingValues : ℚ
  duplicates : ℚ
deriving DecidableEq

/-- JS `Math.round`: round half toward `+∞`. -/
def jsRound (q : ℚ) : ℤ := ⌊q + 1/2⌋

/-- `computeQualityScore(summary, dataset)`. The `try`/`catch` wrapper and
the final `Number.isFinite` check are vacuous in the rational model (no
operation of the body throws or produces a non-finite value there), so the
embedding is the `try` body. -/
def computeQualityScore (summary : Option QSummary) (dataset : Option Dataset) : ℤ :=
  match summary, dataset with
  | some s, some d =>
    if d.columns.length = 0 then 0
    else
      let totalRows := s.totalRows
      let totalColumns : ℚ := (d.columns.length : ℚ)
      if totalRows ≤ 0 ∨ totalColumns ≤ 0 then 0
      else
        let totalCells := totalRows * totalColumns
        let missingPenalty :=
          if 0 < totalCells then min 1 (max 0 (s.missingValues / totalCells)) * (9/10) else 0
        let dupPenalty :=
          if 0 < totalRows then min 1 (max 0 (s.duplicates / totalRows)) * (1/2) else 0
        let score := 100 * (1 - (missingPenalty + dupPenalty))
        max 0 (min 100 (jsRound score))
  | _, _ => 0

/-! ## Quick-chart column picker (`pickQuickColumns` in `Overview.tsx`) -/

/-- Does `needle` occur at the head of `hay`? -/
def leadsWith : List Char → List Char → Bool
  | [], _ => true
  | _ :: _, [] => false
  | a :: as, b :: bs => a == b && leadsWith as bs

/-- Does `needle` occur anywhere in `hay`? -/
def subListAt : List Char → List Char → Bool
  | needle, [] => needle.isEmpty
  | needle, c :: rest => leadsWith needle (c :: rest) || subListAt needle rest

/-- JS `String.prototype.includes` (substring test). -/
def strContainsStr (s pat : String) : Bool := subListAt pat.toList s.toList

/-- `isNumber(v) || (!Number.isNaN(Number(v)) && v !== null && v !== '')`:
the numeric-likeness test shared by the quick-chart picker and the
correlation engine's column-eligibility rule. -/
def numLike (o : Option JSVal) : Bool :=
  match o with
  | some (.vnum _) => true
  | _ =>
    (jsToNumber o).isSome && !(o == some JSVal.vnull) && !(o == some (JSVal.vstr ""))

/-- The sampled numeric-coercibility rule: at least
`max(5, Math.floor(sample.length * 0.6))` of the first `sampleSize` values
are numeric-like. `Math.floor(len * 0.6)` equals `⌊3·len/5⌋` for every
`len ≤ 50` despite `0.6` being a float (each product rounds to the exact
value at these magnitudes). -/
def numericSampleOK (data : List Row) (name : String) (sampleSize : ℕ) : Bool :=
  let sample := (data.take sampleSize).map (fun r => rowGet r name)
  decide ((sample.filter numLike).length ≥ max 5 (3 * sample.length / 5))

/-- Declared-type test: `col.type?.toLowerCase().includes("num") || …("int")`
(optional chaining: an absent type string is falsy). -/
def colTypeNumeric (c : Column) : Bool :=
  match c.ctype with
  | none => false
  | some t =>
    subListAt "num".toList (t.toList.map Char.toLower)
      || subListAt "int".toList (t.toList.map Char.toLower)

/-- The quick numeric-column rule for one column (declared type, else the
20-row sample rule). -/
def numericQuickOK (data : List Row) (c : Column) : Bool :=
  colTypeNumeric c || numericSampleOK data c.name 20

/-- The quick categorical-column rule for one column: between 2 and 20
distinct non-empty values among the first 50 sampled (`new Set`'s
SameValueZero equality coincides with `JSVal` equality here). -/
def catOK (data : List Row) (c : Column) : Bool :=
  let sample := (data.take 50).map (fun r => rowGet r c.name)
  let nonEmpty := sample.filter
    (fun o => !(o == none) && !(o == some JSVal.vnull) && !(o == some (JSVal.vstr "")))
  decide (1 < nonEmpty.dedup.length ∧ nonEmpty.dedup.length ≤ 20)

/-- `pickQuickColumns(columns, data)`: first column satisfying each rule, in
column order. The early `break` once both are found is a no-op under the
`if (!numericCol)` / `if (!categoricalCol)` guards, so the fold is
equivalent. -/
def pickQuickColumns (columns : List Column) (data : List Row) :
    Option String × Option String :=
  columns.foldl
    (fun st c =>
      (if st.1 = none ∧ numericQuickOK data c then some c.name else st.1,
       if st.2 = none ∧ catOK data c then some c.name else st.2))
    (none, none)

/-! ## Histogram builder (`buildHistogram` in `Overview.tsx`) -/

/-- `Math.min(...values)` over a non-empty list. -/
def qmin (l : List ℚ) : ℚ := l.foldl min l.headI

/-- `Math.max(...values)` over a non-empty list. -/
def qmax (l : List ℚ) : ℚ := l.foldl max l.headI

/-- JS `x.toFixed(1)` (round to one decimal, ties to the larger candidate),
used only for bin labels; no claim depends on the label text. -/
def toFixed1 (q : ℚ) : String :=
  let n : ℤ := ⌊q * 10 + 1/2⌋
  if n < 0 then "-" ++ toString ((-n) / 10) ++ "." ++ toString ((-n) % 10)
  else toString (n / 10) ++ "." ++ toString (n % 10)

/-- Bin assignment `Math.min(bins - 1, Math.floor((v - min) / width))`. -/
def histIdx (bins : ℕ) (mn width v : ℚ) : ℕ :=
  (min ((bins : ℤ) - 1) ⌊(v - mn) / width⌋).toNat

/-- The bin width `(max - min || 1) / bins` (the *range* is floored to 1 when
zero, i.e. when all values coincide). -/
def histWidth (values : List ℚ) (bins : ℕ) : ℚ :=
  (if qmax values - qmin values = 0 then 1 else qmax values - qmin values) / (bins : ℚ)

/-- `buildHistogram(values, bins)`: empty input short-circuits to `[]`;
otherwise equal-width bins over `[min, max]`, counts accumulated by a fold,
labels via `toFixed(1)`. -/
def buildHistogram (values : List ℚ) (bins : ℕ) : List (String × ℕ) :=
  if values = [] then []
  else
    let mn := qmin values
    let width := histWidth values bins
    let counts := values.foldl
      (fun cs v => cs.set (histIdx bins mn width v) (cs.getD (histIdx bins mn width v) 0 + 1))
      (List.replicate bins 0)
    (List.range bins).map (fun (i : ℕ) =>
      (toFixed1 (mn + (i : ℚ) * width) ++ "–" ++ toFixed1 (mn + ((i : ℚ) + 1) * width),
       counts.getD i 0))

/-! ## Correlation engine (`pearson`, `buildCorrelation` in `Overview.tsx`) -/

/-- The eligible numeric columns of `buildCorrelation`: declared order,
filtered by the 50-row sampled numeric-coercibility rule (independent of the
declared type). -/
def numericNames (cols : List Column) (data : List Row) : List String :=
  (cols.map (fun c => c.name)).filter (fun name => numericSampleOK data name 50)

/-- A column's full-length coerced series: `Number(v)` per row, `NaN` entries
dropped (the source's `isNumber(v) ? Number(v) : Number(v)` is `Number(v)`). -/
def seriesOf (data : List Row) (name : String) : List ℚ :=
  ((data.map (fun r => rowGet r name)).map jsToNumber).filterMap id

/-- The source's local `mean` helper: `a => a.reduce((s, v) => s + v, 0) / a.length`. -/
noncomputable def meanR (a : List ℝ) : ℝ := a.sum / (a.length : ℝ)

open Classical in
/-- `pearson(xs, ys)`: both series truncated to the shorter length, means via
`reduce / length`, Σ-accumulators over the index range (the `for` loop),
denominator `Math.sqrt(dx * dy) || 1`. Over `ℝ`, since JS float arithmetic is
abstracted to exact real arithmetic. -/
noncomputable def pearson (xs ys : List ℝ) : ℝ :=
  let n := min xs.length ys.length
  if n = 0 then 0
  else
    let x := xs.take n
    let y := ys.take n
    let num := ∑ i ∈ Finset.range n, (x.getD i 0 - meanR x) * (y.getD i 0 - meanR y)
    let dx := ∑ i ∈ Finset.range n, (x.getD i 0 - meanR x) ^ 2
    let dy := ∑ i ∈ Finset.range n, (y.getD i 0 - meanR y) ^ 2
    let denom := if Real.sqrt (dx * dy) = 0 then 1 else Real.sqrt (dx * dy)
    num / denom

/-- One cell of the matrix loop of `buildCorrelation`:
`matrix[i][j] = len ? pearson(xi.slice(0, len), yj.slice(0, len)) : 0`. -/
noncomputable def corrCell (data : List Row) (ni nj : String) : ℝ :=
  let xi := seriesOf data ni
  let yj := seriesOf data nj
  let len := min xi.length yj.length
  if len = 0 then 0
  else pearson ((xi.take len).map (fun q => (q : ℝ))) ((yj.take len).map (fun q => (q : ℝ)))

/-- The full matrix of `buildCorrelation`, row-major over the eligible
column names. -/
noncomputable def buildCorrelationMatrix (cols : List Column) (data : List Row) :
    List (List ℝ) :=
  (numericNames cols data).map (fun ni =>
    (numericNames cols data).map (fun nj => corrCell data ni nj))

/-- Entry accessor for the correlation matrix (in-range accesses only are
claimed). -/
noncomputable def corrEntry (cols : List Column) (data : List Row) (i j : ℕ) : ℝ :=
  ((buildCorrelationMatrix cols data).getD i []).getD j 0

/-! ## Specification-side helpers (defined from the input, independently of
the loop structure of the code, so that the theorems relate the code to
quantities a reader can check directly) -/

/-- The rows belonging to a group key. -/
def groupRows (xk : String) (rows : List Row) (k : String) : List Row :=
  rows.filter (fun r => rowKeyStr xk r == k)

/-- The group a key accumulates to: raw name value of the first matching row,
sum of the coerced contributions, member count. -/
def groupOf (xk yk : String) (rows : List Row) (k : String) : Group :=
  Group.mk (rowKeyVal xk ((rows.find? (fun r => rowKeyStr xk r == k)).getD []))
    ((groupRows xk rows k).map (rowYVal yk)).sum
    (groupRows xk rows k).length

/-- Deduplication keeping the *first* occurrence of each element (the
insertion order of JS object keys). -/
def firstDedup (l : List String) : List String :=
  l.foldl (fun acc k => if k ∈ acc then acc else acc ++ [k]) []

/-- The distinct group keys of an input, in first-encounter order. -/
def encounterKeys (xk : String) (rows : List Row) : List String :=
  firstDedup (rows.map (rowKeyStr xk))

/-- The quality-score formula exactly as the claim words it:
`round(clamp(100 · (1 − missingPenalty − duplicatePenalty), 0, 100))` with
`missingPenalty = clamp01(missingValues / totalCells) · 0.9` and
`duplicatePenalty = clamp01(duplicates / totalRows) · 0.5`. -/
def specQualityScore (s : QSummary) (ncols : ℕ) : ℤ :=
  let totalCells : ℚ := s.totalRows * (ncols : ℚ)
  let missingPenalty := min 1 (max 0 (s.missingValues / totalCells)) * (9/10)
  let dupPenalty := min 1 (max 0 (s.duplicates / s.totalRows)) * (1/2)
  jsRound (max 0 (min 100 (100 * (1 - missingPenalty - dupPenalty))))

/-! ## Theorems -/

/-- `divNat` is ordinary division by the cast count. -/
theorem divNat_eq_div (a : ℚ) (n : ℕ) : divNat a n = a / (n : ℚ) := by
  rw [divNat, Rat.mkRat_eq_div]
  push_cast
  rw [← div_div, Rat.num_div_den]

/-- C1 (failing-input evidence): for the dataset with columns `[a]` and rows
`{a:1}, {a:1}, {a:null}` — two identical rows plus one all-null row — the
summary computer reports `duplicates = 2`, because it subtracts the distinct
serializations of the non-all-null rows from the length of the *whole* data
array (`dataset.data.length - rowHashes.size`), while the spec's formula
(non-all-null rows minus distinct serializations, second conjunct) gives `1`.
This contradicts the code's own comment "Skip all-null rows when calculating
duplicates". -/
theorem c1_duplicates_failing_input :
    (calculateMetricsFromData (Dataset.mk [Column.mk "a" none]
        [[("a", JSVal.vnum 1)], [("a", JSVal.vnum 1)], [("a", JSVal.vnull)]])).duplicates = 2 ∧
    specDuplicates (Dataset.mk [Column.mk "a" none]
        [[("a", JSVal.vnum 1)], [("a", JSVal.vnum 1)], [("a", JSVal.vnull)]]) = 1 ∧
    (2 : ℤ) ≠ 1 := by decide

/-- C6: the worker emits exactly one response per request (`onmessage` is a
total function into the response type), every response is `success` or
`error`, a missing or non-array `data` payload produces the single error
response `"No data array provided"`, and an array payload produces the single
success response carrying the aggregation result. -/
theorem c6_worker_response_shape :
    ∀ req : WorkerRequest,
      ((∃ pts, onmessage req = WorkerResponse.success pts) ∨
        (∃ msg, onmessage req = WorkerResponse.error msg)) ∧
      (req.data = none → onmessage req = WorkerResponse.error "No data array provided") ∧
      (∀ v, req.data = some (WorkerData.nonArr v) →
        onmessage req = WorkerResponse.error "No data array provided") ∧
      (∀ rows, req.data = some (WorkerData.arr rows) →
        onmessage req = WorkerResponse.success (aggregate rows req.config)) := by
  intro req
  obtain ⟨d, c⟩ := req
  cases d with
  | none =>
    exact ⟨Or.inr ⟨_, rfl⟩, fun _ => rfl, fun v h => Option.noConfusion h,
      fun rows h => Option.noConfusion h⟩
  | some dd =>
    cases dd with
    | arr rows =>
      refine ⟨Or.inl ⟨_, rfl⟩, fun h => Option.noConfusion h,
        fun v h => WorkerData.noConfusion (Option.some.inj h), fun rows0 h => ?_⟩
      have h2 := WorkerData.arr.inj (Option.some.inj h)
      subst h2
      rfl
    | nonArr v0 =>
      exact ⟨Or.inr ⟨_, rfl⟩, fun h => Option.noConfusion h, fun v h => rfl,
        fun rows h => WorkerData.noConfusion (Option.some.inj h)⟩

/-- Witness for C6 at concrete requests: a non-array payload yields the error
response, an array payload yields the success response. -/
theorem c6_worker_response_shape_witness :
    onmessage (WorkerRequest.mk (some (WorkerData.nonArr (JSVal.vnum 3))) none)
      = WorkerResponse.error "No data array provided" ∧
    onmessage (WorkerRequest.mk (some (WorkerData.arr [])) none)
      = WorkerResponse.success (aggregate [] none) :=
  ⟨(c6_worker_response_shape (WorkerRequest.mk (some (WorkerData.nonArr (JSVal.vnum 3))) none)).2.2.1
      (JSVal.vnum 3) rfl,
   (c6_worker_response_shape (WorkerRequest.mk (some (WorkerData.arr [])) none)).2.2.2 [] rfl⟩

/-- Rounding then clamping to `[0, 100]` agrees with clamping then rounding
(the code rounds first, the claim's formula clamps first). -/
theorem clamp_jsRound_comm (q : ℚ) :
    max 0 (min 100 (jsRound q)) = jsRound (max 0 (min 100 q)) := by
  unfold jsRound
  rcases lt_or_le q 0 with h | h
  · have h1 : (⌊q + 1/2⌋ : ℤ) ≤ 0 := by
      have h2 : q + 1/2 ≤ 1/2 := by linarith
      calc ⌊q + 1/2⌋ ≤ ⌊(1 : ℚ)/2⌋ := Int.floor_le_floor h2
        _ = 0 := by norm_num
    rw [min_eq_right (by linarith : q ≤ 100), max_eq_left (le_of_lt h),
      min_eq_right (h1.trans (by norm_num : (0:ℤ) ≤ 100)), max_eq_left h1]
    norm_num
  · rcases le_or_lt q 100 with h2 | h2
    · have hlow : (0 : ℤ) ≤ ⌊q + 1/2⌋ := Int.floor_nonneg.mpr (by linarith)
      have hhigh : ⌊q + 1/2⌋ ≤ 100 := by
        have h3 : ⌊q + 1/2⌋ < 101 := Int.floor_lt.mpr (by push_cast; linarith)
        omega
      rw [min_eq_right h2, max_eq_right h, min_eq_right hhigh, max_eq_right hlow]
    · have h100 : (100 : ℤ) ≤ ⌊q + 1/2⌋ := Int.le_floor.mpr (by push_cast; linarith)
      rw [min_eq_left (by linarith : (100:ℚ) ≤ q), max_eq_right (by norm_num : (0:ℚ) ≤ 100),
        min_eq_left h100, max_eq_right (by omega : (0:ℤ) ≤ 100)]
      norm_num

/-- C7: `computeQualityScore` always returns an integer in `[0, 100]`; it
returns `0` whenever the summary or dataset is absent, the dataset has zero
columns, or `totalRows ≤ 0`; and in the non-degenerate case it returns
exactly the claim's formula
`round(clamp(100·(1 − missingPenalty − duplicatePenalty), 0, 100))`
(`specQualityScore`). In the rational model no operation of the body throws
or produces a non-finite value, so the `try`/`catch` and `Number.isFinite`
guards are vacuous and the function indeed never throws. -/
theorem c7_quality_score_spec :
    ∀ (s : Option QSummary) (d : Option Dataset),
      (0 ≤ computeQualityScore s d ∧ computeQualityScore s d ≤ 100) ∧
      ((s = none ∨ d = none) → computeQualityScore s d = 0) ∧
      (∀ s0 d0, s = some s0 → d = some d0 →
        (d0.columns.length = 0 ∨ s0.totalRows ≤ 0) → computeQualityScore s d = 0) ∧
      (∀ s0 d0, s = some s0 → d = some d0 →
        0 < d0.columns.length → 0 < s0.totalRows →
        computeQualityScore s d = specQualityScore s0 d0.columns.length) := by
  intro s d
  rcases s with _ | s0 <;> rcases d with _ | d0
  · exact ⟨⟨le_refl 0, by show (0:ℤ) ≤ 100; norm_num⟩, fun _ => rfl,
      fun s1 d1 h1 _ => Option.noConfusion h1,
      fun s1 d1 h1 _ => Option.noConfusion h1⟩
  · exact ⟨⟨le_refl 0, by show (0:ℤ) ≤ 100; norm_num⟩, fun _ => rfl,
      fun s1 d1 h1 _ => Option.noConfusion h1,
      fun s1 d1 h1 _ => Option.noConfusion h1⟩
  · exact ⟨⟨le_refl 0, by show (0:ℤ) ≤ 100; norm_num⟩, fun _ => rfl,
      fun s1 d1 _ h2 _ => Option.noConfusion h2,
      fun s1 d1 _ h2 _ => Option.noConfusion h2⟩
  refine ⟨?_, ?_, ?_, ?_⟩
  · show 0 ≤ computeQualityScore (some s0) (some d0) ∧
      computeQualityScore (some s0) (some d0) ≤ 100
    simp only [computeQualityScore]
    split
    · exact ⟨le_refl 0, by norm_num⟩
    · split
      · exact ⟨le_refl 0, by norm_num⟩
      · constructor
        · exact le_max_left 0 _
        · exact max_le (by norm_num) (min_le_left 100 _)
  · rintro (h | h) <;> exact Option.noConfusion h
  · rintro s1 d1 h1 h2 hdeg
    cases Option.some.inj h1
    cases Option.some.inj h2
    simp only [computeQualityScore]
    rcases hdeg with hdeg | hdeg
    · rw [if_pos hdeg]
    · split
      · rfl
      · rw [if_pos (Or.inl hdeg)]
  · rintro s1 d1 h1 h2 hcols hrows
    cases Option.some.inj h1
    cases Option.some.inj h2
    simp only [computeQualityScore]
    rw [if_neg (by omega)]
    have hcolsQ : (0 : ℚ) < (d0.columns.length : ℚ) := by exact_mod_cast hcols
    rw [if_neg (by push_neg; exact ⟨hrows, hcolsQ⟩)]
    have hcells : (0 : ℚ) < s0.totalRows * (d0.columns.length : ℚ) :=
      mul_pos hrows hcolsQ
    rw [if_pos hcells, if_pos hrows]
    simp only [specQualityScore]
    rw [clamp_jsRound_comm]
    congr 1
    ring_nf

/-- Witness for C7 at concrete inputs: the non-degenerate branch matches the
claim's formula, and each degenerate branch yields 0. -/
theorem c7_quality_score_spec_witness :
    computeQualityScore (some (QSummary.mk 10 5 2))
        (some (Dataset.mk [Column.mk "a" none, Column.mk "b" none] []))
      = specQualityScore (QSummary.mk 10 5 2) 2 ∧
    computeQualityScore none none = 0 ∧
    computeQualityScore (some (QSummary.mk 0 1 1))
        (some (Dataset.mk [Column.mk "a" none] [])) = 0 :=
  ⟨(c7_quality_score_spec (some (QSummary.mk 10 5 2))
        (some (Dataset.mk [Column.mk "a" none, Column.mk "b" none] []))).2.2.2
      (QSummary.mk 10 5 2) (Dataset.mk [Column.mk "a" none, Column.mk "b" none] [])
      rfl rfl (by decide) (by decide),
   (c7_quality_score_spec none none).2.1 (Or.inl rfl),
   (c7_quality_score_spec (some (QSummary.mk 0 1 1))
        (some (Dataset.mk [Column.mk "a" none] []))).2.2.1
      (QSummary.mk 0 1 1) (Dataset.mk [Column.mk "a" none] [])
      rfl rfl (Or.inr (by decide))⟩

/-- C10: a concrete dataset on which the quick-chart picker selects the same
column as both the quick numeric and the quick categorical column: one
column named `a` with declared type `"number"` and two distinct sampled
values, so the numeric rule fires by declared type and the categorical scan
(which does not exclude the column already chosen as numeric) also fires. -/
theorem c10_pickQuickColumns_same_column :
    pickQuickColumns [Column.mk "a" (some "number")]
        [[("a", JSVal.vnum 1)], [("a", JSVal.vnum 2)]] = (some "a", some "a") ∧
    (pickQuickColumns [Column.mk "a" (some "number")]
        [[("a", JSVal.vnum 1)], [("a", JSVal.vnum 2)]]).1
      = (pickQuickColumns [Column.mk "a" (some "number")]
          [[("a", JSVal.vnum 1)], [("a", JSVal.vnum 2)]]).2 := by decide

/-- C4 counterexample: rows whose key value is the empty string or the
literal string `"null"` — both "missing" by the spec's four-way definition —
are *not* grouped under `"Unknown"`: the worker's `?? 'Unknown'` fallback
catches only `null`/`undefined`, so they group under `""` and `"null"`. -/
theorem c4_missing_key_counterexample :
    (aggregate [[("k", JSVal.vstr "")], [("k", JSVal.vstr "null")]]
        (some (ChartConfig.mk (some (JSVal.vstr "k")) none none none none))).map AggPoint.name
      = ["", "null"] ∧
    ("" : String) ≠ "Unknown" ∧ ("null" : String) ≠ "Unknown" := by decide

/-- C5 counterexample: with `sortKey = byValue` (default `'y'`) and
`sortDirection = desc` (default), two groups with equal value (both 0) and
numeric group keys first encountered in the order `"10", "2"` are emitted in
the order `"2", "10"`: `Object.values` enumerates array-index-like keys in
ascending numeric order before insertion order, so equal-valued groups are
not emitted in first-encounter order. -/
theorem c5_tie_order_counterexample :
    aggregate [[("k", JSVal.vnum 10)], [("k", JSVal.vnum 2)]]
        (some (ChartConfig.mk (some (JSVal.vstr "k")) none none none none))
      = [AggPoint.mk "2" 0 1, AggPoint.mk "10" 0 1] ∧
    ([[("k", JSVal.vnum 10)], [("k", JSVal.vnum 2)]] : List Row).map (rowKeyStr "k")
      = ["10", "2"] ∧
    (["2", "10"] : List String) ≠ ["10", "2"] := by decide

/-- C9 counterexample: the claim asserts the histogram length equals the bin
count for *every* value list, but the empty list short-circuits to `[]`,
whose length is `0 ≠ 12`. -/
theorem c9_empty_input_counterexample :
    buildHistogram [] 12 = [] ∧ (buildHistogram [] 12).length ≠ 12 := by decide

/-! ### Characterization of the worker's grouping loop -/

theorem buildGroups_append (xk yk : String) (rows : List Row) (r : Row) :
    buildGroups xk yk (rows ++ [r]) = bump xk yk (buildGroups xk yk rows) r := by
  simp [buildGroups, List.foldl_append]

theorem firstDedup_append (l : List String) (k : String) :
    firstDedup (l ++ [k])
      = if k ∈ firstDedup l then firstDedup l else firstDedup l ++ [k] := by
  simp [firstDedup, List.foldl_append]

theorem mem_firstDedup (l : List String) : ∀ a, a ∈ firstDedup l ↔ a ∈ l := by
  induction l using List.reverseRecOn with
  | nil => intro a; simp [firstDedup]
  | append_singleton l k ih =>
    intro a
    rw [firstDedup_append]
    by_cases h : k ∈ firstDedup l
    · rw [if_pos h]
      simp only [List.mem_append, List.mem_singleton, ih a]
      constructor
      · exact fun h2 => Or.inl h2
      · rintro (h2 | rfl)
        · exact h2
        · exact (ih a).mp h
    · rw [if_neg h]
      simp [ih a]

theorem nodup_firstDedup (l : List String) : (firstDedup l).Nodup := by
  induction l using List.reverseRecOn with
  | nil => simp [firstDedup]
  | append_singleton l k ih =>
    rw [firstDedup_append]
    by_cases h : k ∈ firstDedup l
    · rwa [if_pos h]
    · rw [if_neg h]
      simp only [List.nodup_append, List.nodup_singleton, true_and]
      exact ⟨ih, by simpa [List.disjoint_singleton] using h⟩

theorem firstDedup_length (l : List String) : (firstDedup l).length = l.dedup.length := by
  have h1 : (firstDedup l).toFinset = l.toFinset := by
    ext a
    simp [List.mem_toFinset, mem_firstDedup]
  rw [← List.toFinset_card_of_nodup (nodup_firstDedup l), h1, List.card_toFinset]

/-- The grouping loop computes, in first-encounter key order, exactly the
per-key sums, counts and first raw key values. -/
theorem buildGroups_eq (xk yk : String) (rows : List Row) :
    buildGroups xk yk rows
      = (encounterKeys xk rows).map (fun k => (k, groupOf xk yk rows k)) := by
  induction rows using List.reverseRecOn with
  | nil => rfl
  | append_singleton rows r ih =>
    rw [buildGroups_append, ih]
    unfold encounterKeys
    rw [List.map_append, List.map_cons, List.map_nil, firstDedup_append]
    simp only [bump]
    by_cases hmem : rowKeyStr xk r ∈ firstDedup (rows.map (rowKeyStr xk))
    · rw [if_pos hmem]
      have hany : ((firstDedup (rows.map (rowKeyStr xk))).map
          (fun k => (k, groupOf xk yk rows k))).any
            (fun p => p.1 == rowKeyStr xk r) = true := by
        rw [List.any_eq_true]
        exact ⟨(rowKeyStr xk r, groupOf xk yk rows (rowKeyStr xk r)),
          List.mem_map.mpr ⟨rowKeyStr xk r, hmem, rfl⟩, by simp⟩
      rw [if_pos hany, List.map_map]
      apply List.map_congr_left
      intro k hk
      obtain ⟨r0, hr0mem, hr0k⟩ :=
        List.mem_map.mp ((mem_firstDedup (rows.map (rowKeyStr xk)) k).mp hk)
      obtain ⟨w, hw⟩ : ∃ w, rows.find? (fun r1 => rowKeyStr xk r1 == k) = some w := by
        rw [← Option.isSome_iff_exists, List.find?_isSome]
        exact ⟨r0, hr0mem, by simp [hr0k]⟩
      by_cases hkkr : k = rowKeyStr xk r
      · subst hkkr
        simp only [Function.comp_apply, if_pos rfl]
        unfold groupOf groupRows
        rw [List.filter_append, List.find?_append, hw]
        simp [List.sum_append]
      · simp only [Function.comp_apply, if_neg hkkr]
        unfold groupOf groupRows
        rw [List.filter_append, List.find?_append, hw]
        have hfr : List.filter (fun r1 => rowKeyStr xk r1 == k) [r] = [] := by
          simp [Ne.symm hkkr]
        simp [hfr]
    · rw [if_neg hmem]
      have hany : ((firstDedup (rows.map (rowKeyStr xk))).map
          (fun k => (k, groupOf xk yk rows k))).any
            (fun p => p.1 == rowKeyStr xk r) = false := by
        rw [List.any_eq_false]
        rintro ⟨k, g⟩ hp
        obtain ⟨k1, hk1, hke⟩ := List.mem_map.mp hp
        cases hke
        simp only [beq_iff_eq]
        intro hkk
        exact hmem (hkk ▸ hk1)
      rw [if_neg (fun hcon => by rw [hany] at hcon; exact Bool.false_ne_true hcon),
        List.map_append, List.map_cons, List.map_nil]
      congr 1
      · apply List.map_congr_left
        intro k hk
        have hkkr : ¬ k = rowKeyStr xk r := fun h => hmem (h ▸ hk)
        obtain ⟨r0, hr0mem, hr0k⟩ :=
          List.mem_map.mp ((mem_firstDedup (rows.map (rowKeyStr xk)) k).mp hk)
        obtain ⟨w, hw⟩ : ∃ w, rows.find? (fun r1 => rowKeyStr xk r1 == k) = some w := by
          rw [← Option.isSome_iff_exists, List.find?_isSome]
          exact ⟨r0, hr0mem, by simp [hr0k]⟩
        unfold groupOf groupRows
        rw [List.filter_append, List.find?_append, hw]
        have hfr : List.filter (fun r1 => rowKeyStr xk r1 == k) [r] = [] := by
          simp [Ne.symm hkkr]
        simp [hfr]
      · have hnone : rows.find? (fun r1 => rowKeyStr xk r1 == rowKeyStr xk r) = none := by
          rw [List.find?_eq_none]
          intro r1 hr1
          simp only [beq_iff_eq]
          intro hk1
          exact hmem ((mem_firstDedup (rows.map (rowKeyStr xk)) _).mpr
            (List.mem_map.mpr ⟨r1, hr1, hk1⟩))
        have hempty : groupRows xk rows (rowKeyStr xk r) = [] := by
          unfold groupRows
          rw [List.filter_eq_nil_iff]
          intro r1 hr1
          simp only [beq_iff_eq]
          intro hk1
          exact hmem ((mem_firstDedup (rows.map (rowKeyStr xk)) _).mpr
            (List.mem_map.mpr ⟨r1, hr1, hk1⟩))
        unfold groupOf groupRows
        rw [List.filter_append, List.find?_append, hnone]
        unfold groupRows at hempty
        rw [hempty]
        simp

/-! ### Permutation structure of the enumeration and sort steps -/

theorem filterMap_arrayIndex_map_snd (gs : List (String × Group)) :
    (gs.filterMap (fun p => (arrayIndex? p.1).map (fun n => (n, p)))).map (fun q => q.2)
      = gs.filter (fun p => (arrayIndex? p.1).isSome) := by
  induction gs with
  | nil => rfl
  | cons p gs ih =>
    simp only [List.filterMap_cons]
    cases h : arrayIndex? p.1 with
    | none => simp [List.filter_cons, h, ih]
    | some n => simp [List.filter_cons, h, ih]

theorem objectValuesPairs_perm (gs : List (String × Group)) :
    List.Perm (objectValuesPairs gs) gs := by
  unfold objectValuesPairs
  have h1 : ((gs.filterMap (fun p => (arrayIndex? p.1).map (fun n => (n, p)))).insertionSort
        (fun a b => a.1 ≤ b.1)).map (fun q => q.2)
      |>.Perm (gs.filter (fun p => (arrayIndex? p.1).isSome)) := by
    rw [← filterMap_arrayIndex_map_snd]
    exact (List.perm_insertionSort _ _).map _
  have h3 : gs.filter (fun p => (arrayIndex? p.1).isNone)
      = gs.filter (fun p => !(arrayIndex? p.1).isSome) := by
    apply List.filter_congr
    intro x _
    cases arrayIndex? x.1 <;> rfl
  rw [h3]
  exact (h1.append (List.Perm.refl _)).trans (List.filter_append_perm _ gs)

theorem sortPoints_perm (sk sd : JSVal) (pts : List AggPoint) :
    List.Perm (sortPoints sk sd pts) pts := by
  unfold sortPoints
  split_ifs <;> exact List.perm_insertionSort _ _

theorem sortedPoints_perm (rows : List Row) (cfg : Option ChartConfig) :
    List.Perm (sortedPoints rows cfg) (basePoints rows cfg) :=
  sortPoints_perm _ _ _

theorem basePoints_length (rows : List Row) (cfg : Option ChartConfig) :
    (basePoints rows cfg).length
      = ((rows.map (rowKeyStr (propKey (cfg.bind ChartConfig.xAxis)))).dedup).length := by
  unfold basePoints
  rw [List.length_map, (objectValuesPairs_perm _).length_eq, buildGroups_eq,
    List.length_map]
  exact firstDedup_length _

/-- The string name under which a group's point is emitted is the group's
key: the stored raw `gname` is the key value of the first row of the group. -/
theorem name_of_groupOf (xk yk : String) (rows : List Row) (k : String)
    (hk : k ∈ encounterKeys xk rows) :
    jsValToString (groupOf xk yk rows k).gname = k := by
  obtain ⟨r0, hr0mem, hr0k⟩ :=
    List.mem_map.mp ((mem_firstDedup (rows.map (rowKeyStr xk)) k).mp hk)
  obtain ⟨w, hw⟩ : ∃ w, rows.find? (fun r1 => rowKeyStr xk r1 == k) = some w := by
    rw [← Option.isSome_iff_exists, List.find?_isSome]
    exact ⟨r0, hr0mem, by simp [hr0k]⟩
  have hwk : rowKeyStr xk w = k := by
    have h2 := List.find?_some hw
    simpa using h2
  unfold groupOf
  rw [hw]
  exact hwk

/-- C2: the worker's output is exactly the first 1000 points of the fully
sorted group list (truncation after sorting), its length is at most 1000,
and the fully sorted list has exactly one point per distinct group key (so
the output length is also at most the number of distinct group keys). -/
theorem c2_aggregate_truncation (rows : List Row) (cfg : Option ChartConfig) :
    aggregate rows cfg = (sortedPoints rows cfg).take 1000 ∧
    (aggregate rows cfg).length ≤ 1000 ∧
    (sortedPoints rows cfg).length
      = ((rows.map (rowKeyStr (propKey (cfg.bind ChartConfig.xAxis)))).dedup).length ∧
    (aggregate rows cfg).length
      ≤ ((rows.map (rowKeyStr (propKey (cfg.bind ChartConfig.xAxis)))).dedup).length := by
  have hlen : (sortedPoints rows cfg).length
      = ((rows.map (rowKeyStr (propKey (cfg.bind ChartConfig.xAxis)))).dedup).length := by
    rw [(sortedPoints_perm rows cfg).length_eq]
    exact basePoints_length rows cfg
  refine ⟨rfl, ?_, hlen, ?_⟩
  · rw [aggregate, List.length_take]
    exact min_le_left _ _
  · rw [aggregate, List.length_take, ← hlen]
    exact min_le_right _ _

/-- C3: every point emitted by `aggregate` has `size` equal to its group's
member count (which is positive), and `value` equal to the sum of the
members' coerced contributions (`Number(v) || 0`, so non-numeric values
contribute 0 but still count toward `size`), divided by the member count
exactly when the aggregation mode is `average`. -/
theorem c3_aggregate_point_values (rows : List Row) (cfg : Option ChartConfig)
    (p : AggPoint) (hp : p ∈ aggregate rows cfg) :
    0 < p.size ∧
    p.size = (groupRows (propKey (cfg.bind ChartConfig.xAxis)) rows p.name).length ∧
    (jsOr (cfg.bind ChartConfig.aggregation) (JSVal.vstr "sum") = JSVal.vstr "average" →
      p.value = ((groupRows (propKey (cfg.bind ChartConfig.xAxis)) rows p.name).map
          (rowYVal (propKey (cfg.bind ChartConfig.yAxis)))).sum / (p.size : ℚ)) ∧
    (jsOr (cfg.bind ChartConfig.aggregation) (JSVal.vstr "sum") ≠ JSVal.vstr "average" →
      p.value = ((groupRows (propKey (cfg.bind ChartConfig.xAxis)) rows p.name).map
          (rowYVal (propKey (cfg.bind ChartConfig.yAxis)))).sum) := by
  have hp1 : p ∈ sortedPoints rows cfg := List.mem_of_mem_take hp
  have hp2 : p ∈ basePoints rows cfg := ((sortedPoints_perm rows cfg).mem_iff).mp hp1
  simp only [basePoints] at hp2
  obtain ⟨pr, hpr, hpe⟩ := List.mem_map.mp hp2
  have hpr2 : pr ∈ buildGroups (propKey (cfg.bind ChartConfig.xAxis))
      (propKey (cfg.bind ChartConfig.yAxis)) rows :=
    ((objectValuesPairs_perm _).mem_iff).mp hpr
  rw [buildGroups_eq] at hpr2
  obtain ⟨k, hk, hke⟩ := List.mem_map.mp hpr2
  rw [← hke] at hpe
  subst hpe
  have hname : (pointOf (jsOr (cfg.bind ChartConfig.aggregation) (JSVal.vstr "sum"))
      (k, groupOf (propKey (cfg.bind ChartConfig.xAxis))
        (propKey (cfg.bind ChartConfig.yAxis)) rows k).2).name = k := by
    exact name_of_groupOf _ _ rows k hk
  obtain ⟨r0, hr0mem, hr0k⟩ :=
    List.mem_map.mp ((mem_firstDedup
      (rows.map (rowKeyStr (propKey (cfg.bind ChartConfig.xAxis)))) k).mp hk)
  have hr0g : r0 ∈ groupRows (propKey (cfg.bind ChartConfig.xAxis)) rows k :=
    List.mem_filter.mpr ⟨hr0mem, by simp [hr0k]⟩
  have hcount : 0 < (groupRows (propKey (cfg.bind ChartConfig.xAxis)) rows k).length :=
    List.length_pos.mpr (List.ne_nil_of_mem hr0g)
  rw [hname]
  refine ⟨hcount, rfl, ?_, ?_⟩
  · intro haggeq
    show (pointOf _ (groupOf _ _ rows k)).value = _
    unfold pointOf
    rw [if_pos ⟨haggeq, hcount⟩]
    simp only [divNat_eq_div]
    rfl
  · intro hne
    show (pointOf _ (groupOf _ _ rows k)).value = _
    unfold pointOf
    rw [if_neg (fun hcon => hne hcon.1)]
    rfl

/-- Witness for C3 at a concrete input: one row `{k:"A", v:10}` with
`aggregationMode = average` yields the point `{name:"A", value:10, size:1}`
satisfying every conjunct. -/
theorem c3_aggregate_point_values_witness :
    0 < (AggPoint.mk "A" (10:ℚ) 1).size ∧
    (AggPoint.mk "A" (10:ℚ) 1).size
      = (groupRows "k" [[("k", JSVal.vstr "A"), ("v", JSVal.vnum 10)]] "A").length ∧
    (jsOr (some (JSVal.vstr "average")) (JSVal.vstr "sum") = JSVal.vstr "average" →
      (AggPoint.mk "A" (10:ℚ) 1).value
        = ((groupRows "k" [[("k", JSVal.vstr "A"), ("v", JSVal.vnum 10)]] "A").map
            (rowYVal "v")).sum / ((AggPoint.mk "A" (10:ℚ) 1).size : ℚ)) ∧
    (jsOr (some (JSVal.vstr "average")) (JSVal.vstr "sum") ≠ JSVal.vstr "average" →
      (AggPoint.mk "A" (10:ℚ) 1).value
        = ((groupRows "k" [[("k", JSVal.vstr "A"), ("v", JSVal.vnum 10)]] "A").map
            (rowYVal "v")).sum) :=
  c3_aggregate_point_values [[("k", JSVal.vstr "A"), ("v", JSVal.vnum 10)]]
    (some (ChartConfig.mk (some (JSVal.vstr "k")) (some (JSVal.vstr "v"))
      (some (JSVal.vstr "average")) none none))
    (AggPoint.mk "A" 10 1) (by decide)

/-- C4 (amended): only `null`/`undefined` key values group under
`"Unknown"`; every other key value — including the empty string and the
literal string `"null"`, which the spec's missing-value definition would
also send to `"Unknown"` — groups under its own string coercion. Every row's
group key appears as a point name in the enumerated point list. -/
theorem c4_grouping_unknown (rows : List Row) (cfg : Option ChartConfig) (r : Row)
    (hr : r ∈ rows) :
    ((rowGet r (propKey (cfg.bind ChartConfig.xAxis)) = none ∨
        rowGet r (propKey (cfg.bind ChartConfig.xAxis)) = some JSVal.vnull) →
      rowKeyStr (propKey (cfg.bind ChartConfig.xAxis)) r = "Unknown") ∧
    (∀ v, rowGet r (propKey (cfg.bind ChartConfig.xAxis)) = some v → v ≠ JSVal.vnull →
      rowKeyStr (propKey (cfg.bind ChartConfig.xAxis)) r = jsValToString v) ∧
    (∃ p ∈ basePoints rows cfg,
      p.name = rowKeyStr (propKey (cfg.bind ChartConfig.xAxis)) r) := by
  refine ⟨?_, ?_, ?_⟩
  · rintro (h | h) <;> simp [rowKeyStr, rowKeyVal, jsValToString, h]
  · intro v hv hvn
    unfold rowKeyStr rowKeyVal
    rw [hv]
    cases v with
    | vnull => exact absurd rfl hvn
    | vbool b => rfl
    | vnum q => rfl
    | vstr s => rfl
  · have hkmem : rowKeyStr (propKey (cfg.bind ChartConfig.xAxis)) r
        ∈ encounterKeys (propKey (cfg.bind ChartConfig.xAxis)) rows := by
      unfold encounterKeys
      exact (mem_firstDedup _ _).mpr (List.mem_map.mpr ⟨r, hr, rfl⟩)
    have hpair : (rowKeyStr (propKey (cfg.bind ChartConfig.xAxis)) r,
        groupOf (propKey (cfg.bind ChartConfig.xAxis))
          (propKey (cfg.bind ChartConfig.yAxis)) rows
          (rowKeyStr (propKey (cfg.bind ChartConfig.xAxis)) r))
        ∈ buildGroups (propKey (cfg.bind ChartConfig.xAxis))
            (propKey (cfg.bind ChartConfig.yAxis)) rows := by
      rw [buildGroups_eq]
      exact List.mem_map.mpr ⟨_, hkmem, rfl⟩
    have hov := ((objectValuesPairs_perm _).mem_iff).mpr hpair
    refine ⟨pointOf (jsOr (cfg.bind ChartConfig.aggregation) (JSVal.vstr "sum"))
      (groupOf (propKey (cfg.bind ChartConfig.xAxis))
        (propKey (cfg.bind ChartConfig.yAxis)) rows
        (rowKeyStr (propKey (cfg.bind ChartConfig.xAxis)) r)), ?_, ?_⟩
    · simp only [basePoints]
      exact List.mem_map.mpr ⟨_, hov, rfl⟩
    · exact name_of_groupOf _ _ rows _ hkmem

/-- Witness for C4 at concrete rows: a `null` key groups under `"Unknown"`
(and its group is emitted), a string key groups under itself. -/
theorem c4_grouping_unknown_witness :
    rowKeyStr "k" [("k", JSVal.vnull)] = "Unknown" ∧
    rowKeyStr "k" [("k", JSVal.vstr "x")] = jsValToString (JSVal.vstr "x") ∧
    (∃ p ∈ basePoints [[("k", JSVal.vnull)]]
        (some (ChartConfig.mk (some (JSVal.vstr "k")) none none none none)),
      p.name = rowKeyStr "k" [("k", JSVal.vnull)]) :=
  ⟨(c4_grouping_unknown [[("k", JSVal.vnull)]]
      (some (ChartConfig.mk (some (JSVal.vstr "k")) none none none none))
      [("k", JSVal.vnull)] (by decide)).1 (Or.inr rfl),
   (c4_grouping_unknown [[("k", JSVal.vstr "x")]]
      (some (ChartConfig.mk (some (JSVal.vstr "k")) none none none none))
      [("k", JSVal.vstr "x")] (by decide)).2.1 (JSVal.vstr "x") rfl (by decide),
   (c4_grouping_unknown [[("k", JSVal.vnull)]]
      (some (ChartConfig.mk (some (JSVal.vstr "k")) none none none none))
      [("k", JSVal.vnull)] (by decide)).2.2⟩

/-- C5 (amended): with `sortKey = byValue` (`'y'`) and
`sortDirection = desc`, the emitted values are non-increasing, and groups
with equal value appear in the JS object-enumeration order of the group
table (`Object.values` order: array-index-like keys ascending first, then
first-encounter order) — the sort is stable with respect to that order, as
witnessed by the filter-preservation of every equal-value class. -/
theorem c5_sort_desc_stable (rows : List Row) (cfg : Option ChartConfig)
    (hk : jsOr (cfg.bind ChartConfig.sortKey) (JSVal.vstr "y") = JSVal.vstr "y")
    (hd : jsOr (cfg.bind ChartConfig.sortDirection) (JSVal.vstr "desc")
      = JSVal.vstr "desc") :
    (aggregate rows cfg).Pairwise (fun a b => b.value ≤ a.value) ∧
    (∀ q : ℚ, (sortedPoints rows cfg).filter (fun p => p.value == q)
        = (basePoints rows cfg).filter (fun p => p.value == q)) := by
  have hsp : sortedPoints rows cfg
      = (basePoints rows cfg).insertionSort (fun a b => b.value ≤ a.value) := by
    unfold sortedPoints sortPoints
    rw [hk, hd, if_pos rfl, if_neg (by decide)]
  haveI inst1 : IsTotal AggPoint (fun a b => b.value ≤ a.value) :=
    ⟨fun a b => le_total b.value a.value⟩
  haveI inst2 : IsTrans AggPoint (fun a b => b.value ≤ a.value) :=
    ⟨fun a b c h1 h2 => le_trans h2 h1⟩
  constructor
  · have hs : (sortedPoints rows cfg).Pairwise (fun a b => b.value ≤ a.value) := by
      rw [hsp]
      exact List.sorted_insertionSort _ _
    exact List.Pairwise.sublist (List.take_sublist _ _) hs
  · intro q
    rw [hsp]
    have hsubl : List.Sublist ((basePoints rows cfg).filter (fun p => p.value == q))
        (basePoints rows cfg) := List.filter_sublist _
    have hpair : ((basePoints rows cfg).filter (fun p => p.value == q)).Pairwise
        (fun a b => b.value ≤ a.value) := by
      apply List.pairwise_of_forall_mem_list
      intro a ha b hb
      have ha2 : a.value = q := by simpa using (List.mem_filter.mp ha).2
      have hb2 : b.value = q := by simpa using (List.mem_filter.mp hb).2
      rw [ha2, hb2]
    have h1 : List.Sublist ((basePoints rows cfg).filter (fun p => p.value == q))
        ((basePoints rows cfg).insertionSort (fun a b => b.value ≤ a.value)) :=
      List.sublist_insertionSort hpair hsubl
    have h2 : (((basePoints rows cfg).insertionSort
          (fun a b => b.value ≤ a.value)).filter (fun p => p.value == q)).length
        = ((basePoints rows cfg).filter (fun p => p.value == q)).length :=
      ((List.perm_insertionSort _ (basePoints rows cfg)).filter _).length_eq
    have h4 : ((basePoints rows cfg).filter (fun p => p.value == q)).filter
        (fun p => p.value == q) = (basePoints rows cfg).filter (fun p => p.value == q) :=
      List.filter_eq_self.mpr (fun a ha => (List.mem_filter.mp ha).2)
    have h3 : List.Sublist ((basePoints rows cfg).filter (fun p => p.value == q))
        (((basePoints rows cfg).insertionSort
          (fun a b => b.value ≤ a.value)).filter (fun p => p.value == q)) := by
      rw [← h4]
      exact h1.filter _
    exact (h3.eq_of_length h2.symm).symm

/-- Witness for C5 at a concrete input (defaulted `sortKey`/`sortDirection`
are `'y'`/`'desc'`): both hypotheses hold by `rfl`. -/
theorem c5_sort_desc_stable_witness :
    (aggregate [[("k", JSVal.vstr "A"), ("v", JSVal.vnum 1)],
        [("k", JSVal.vstr "B"), ("v", JSVal.vnum 2)]]
        (some (ChartConfig.mk (some (JSVal.vstr "k")) (some (JSVal.vstr "v"))
          none none none))).Pairwise (fun a b => b.value ≤ a.value) ∧
    (∀ q : ℚ, (sortedPoints [[("k", JSVal.vstr "A"), ("v", JSVal.vnum 1)],
          [("k", JSVal.vstr "B"), ("v", JSVal.vnum 2)]]
          (some (ChartConfig.mk (some (JSVal.vstr "k")) (some (JSVal.vstr "v"))
            none none none))).filter (fun p => p.value == q)
        = (basePoints [[("k", JSVal.vstr "A"), ("v", JSVal.vnum 1)],
            [("k", JSVal.vstr "B"), ("v", JSVal.vnum 2)]]
            (some (ChartConfig.mk (some (JSVal.vstr "k")) (some (JSVal.vstr "v"))
              none none none))).filter (fun p => p.value == q)) :=
  c5_sort_desc_stable
    [[("k", JSVal.vstr "A"), ("v", JSVal.vnum 1)],
      [("k", JSVal.vstr "B"), ("v", JSVal.vnum 2)]]
    (some (ChartConfig.mk (some (JSVal.vstr "k")) (some (JSVal.vstr "v")) none none none))
    rfl rfl

/-! ### Histogram fold characterization -/

theorem histIdx_lt (bins : ℕ) (hb : 0 < bins) (mn width v : ℚ) :
    histIdx bins mn width v < bins := by
  unfold histIdx
  have h1 : min ((bins : ℤ) - 1) ⌊(v - mn) / width⌋ ≤ (bins : ℤ) - 1 :=
    min_le_left _ _
  omega

theorem foldl_set_length (idx : ℚ → ℕ) (values : List ℚ) :
    ∀ cs : List ℕ,
      (values.foldl (fun cs0 v => cs0.set (idx v) (cs0.getD (idx v) 0 + 1)) cs).length
        = cs.length := by
  induction values with
  | nil => intro cs; rfl
  | cons v vs ih =>
    intro cs
    rw [List.foldl_cons, ih, List.length_set]

theorem foldl_set_getD (idx : ℚ → ℕ) (i : ℕ) (values : List ℚ) :
    ∀ cs : List ℕ, i < cs.length →
      (values.foldl (fun cs0 v => cs0.set (idx v) (cs0.getD (idx v) 0 + 1)) cs).getD i 0
        = cs.getD i 0 + values.countP (fun v => idx v == i) := by
  induction values with
  | nil => intro cs _; simp
  | cons v vs ih =>
    intro cs hi
    rw [List.foldl_cons, ih _ (by rw [List.length_set]; exact hi), List.countP_cons]
    by_cases h : idx v = i
    · subst h
      rw [List.getD_eq_getElem?_getD, List.getElem?_set_self (by omega),
        List.getD_eq_getElem?_getD cs]
      simp
      omega
    · rw [List.getD_eq_getElem?_getD, List.getElem?_set_ne (fun hcon => h hcon),
        ← List.getD_eq_getElem?_getD cs]
      have hne : (idx v == i) = false := by simpa using h
      rw [hne]
      simp

theorem sum_set_incr (cs : List ℕ) : ∀ j : ℕ, j < cs.length →
    (cs.set j (cs.getD j 0 + 1)).sum = cs.sum + 1 := by
  induction cs with
  | nil => intro j hj; simp at hj
  | cons c cs ih =>
    intro j hj
    cases j with
    | zero =>
      simp only [List.set_cons_zero, List.sum_cons, List.getD_cons_zero]
      omega
    | succ j =>
      have hj2 : j < cs.length := by simpa using hj
      simp only [List.set_cons_succ, List.sum_cons, List.getD_cons_succ, ih j hj2]
      omega

theorem foldl_set_sum (idx : ℚ → ℕ) (values : List ℚ) :
    ∀ cs : List ℕ, (∀ v ∈ values, idx v < cs.length) →
      (values.foldl (fun cs0 v => cs0.set (idx v) (cs0.getD (idx v) 0 + 1)) cs).sum
        = cs.sum + values.length := by
  induction values with
  | nil => intro cs _; rfl
  | cons v vs ih =>
    intro cs hall
    rw [List.foldl_cons,
      ih _ (fun w hw => by
        rw [List.length_set]
        exact hall w (List.mem_cons_of_mem _ hw)),
      sum_set_incr cs _ (hall v (List.mem_cons_self v vs))]
    simp only [List.length_cons]
    omega

theorem map_range_getD (l : List ℕ) (n : ℕ) (h : l.length = n) :
    (List.range n).map (fun i => l.getD i 0) = l := by
  apply List.ext_getElem
  · simp [h]
  · intro i h1 h2
    simp only [List.getElem_map, List.getElem_range]
    rw [List.getD_eq_getElem]

/-- C9 (amended): for every *non-empty* value list and positive bin count,
`buildHistogram` returns exactly `bins` bins, each value lands in bin
`min(bins - 1, ⌊(v - min)/width⌋)` (counted by `histIdx`), and the bin counts
sum to the number of input values (the empty list instead short-circuits to
an empty histogram, the amendment the counterexample forces). -/
theorem c9_histogram_bins (values : List ℚ) (bins : ℕ) (hv : values ≠ [])
    (hb : 0 < bins) :
    (buildHistogram values bins).length = bins ∧
    ((buildHistogram values bins).map (fun b => b.2)).sum = values.length ∧
    (∀ i, i < bins → ((buildHistogram values bins).getD i ("", 0)).2
      = values.countP
          (fun v => histIdx bins (qmin values) (histWidth values bins) v == i)) := by
  simp only [buildHistogram, if_neg hv]
  have hreplen : (List.replicate bins (0 : ℕ)).length = bins := List.length_replicate _ _
  have hclen : (values.foldl
      (fun cs v => cs.set (histIdx bins (qmin values) (histWidth values bins) v)
        (cs.getD (histIdx bins (qmin values) (histWidth values bins) v) 0 + 1))
      (List.replicate bins 0)).length = bins := by
    rw [foldl_set_length]
    exact hreplen
  refine ⟨by simp, ?_, ?_⟩
  · rw [List.map_map]
    have hmm : ((fun b : String × ℕ => b.2) ∘ (fun i : ℕ =>
        (toFixed1 (qmin values + (i : ℚ) * histWidth values bins) ++ "–"
          ++ toFixed1 (qmin values + ((i : ℚ) + 1) * histWidth values bins),
         (values.foldl
            (fun cs v => cs.set (histIdx bins (qmin values) (histWidth values bins) v)
              (cs.getD (histIdx bins (qmin values) (histWidth values bins) v) 0 + 1))
            (List.replicate bins 0)).getD i 0)))
        = fun i : ℕ => (values.foldl
            (fun cs v => cs.set (histIdx bins (qmin values) (histWidth values bins) v)
              (cs.getD (histIdx bins (qmin values) (histWidth values bins) v) 0 + 1))
            (List.replicate bins 0)).getD i 0 := rfl
    rw [hmm, map_range_getD _ bins hclen, foldl_set_sum _ _ _
      (fun v _ => by rw [hreplen]; exact histIdx_lt bins hb _ _ _)]
    simp
  · intro i hi
    have hgd : ((List.range bins).map (fun i : ℕ =>
        (toFixed1 (qmin values + (i : ℚ) * histWidth values bins) ++ "–"
          ++ toFixed1 (qmin values + ((i : ℚ) + 1) * histWidth values bins),
         (values.foldl
            (fun cs v => cs.set (histIdx bins (qmin values) (histWidth values bins) v)
              (cs.getD (histIdx bins (qmin values) (histWidth values bins) v) 0 + 1))
            (List.replicate bins 0)).getD i 0))).getD i ("", 0)
        = (toFixed1 (qmin values + (i : ℚ) * histWidth values bins) ++ "–"
          ++ toFixed1 (qmin values + ((i : ℚ) + 1) * histWidth values bins),
         (values.foldl
            (fun cs v => cs.set (histIdx bins (qmin values) (histWidth values bins) v)
              (cs.getD (histIdx bins (qmin values) (histWidth values bins) v) 0 + 1))
            (List.replicate bins 0)).getD i 0) := by
      rw [List.getD_eq_getElem _ _ (by simpa using hi)]
      simp
    rw [hgd, foldl_set_getD _ _ _ _ (by rw [hreplen]; exact hi)]
    simp

/-- Witness for C9 at a concrete input: three values, two bins. -/
theorem c9_histogram_bins_witness :
    (buildHistogram [1, 2, 3] 2).length = 2 ∧
    ((buildHistogram [1, 2, 3] 2).map (fun b => b.2)).sum = ([1, 2, 3] : List ℚ).length ∧
    (∀ i, i < 2 → ((buildHistogram [1, 2, 3] 2).getD i ("", 0)).2
      = ([1, 2, 3] : List ℚ).countP
          (fun v => histIdx 2 (qmin [1, 2, 3]) (histWidth [1, 2, 3] 2) v == i)) :=
  c9_histogram_bins [1, 2, 3] 2 (by decide) (by decide)

/-! ### Correlation properties -/

theorem pearson_symm (xs ys : List ℝ) : pearson xs ys = pearson ys xs := by
  simp only [pearson]
  rw [Nat.min_comm ys.length xs.length]
  by_cases h : min xs.length ys.length = 0
  · rw [if_pos h, if_pos h]
  · rw [if_neg h, if_neg h]
    have hnum : (∑ i ∈ Finset.range (min xs.length ys.length),
        ((xs.take (min xs.length ys.length)).getD i 0
            - meanR (xs.take (min xs.length ys.length)))
          * ((ys.take (min xs.length ys.length)).getD i 0
              - meanR (ys.take (min xs.length ys.length))))
        = ∑ i ∈ Finset.range (min xs.length ys.length),
          ((ys.take (min xs.length ys.length)).getD i 0
              - meanR (ys.take (min xs.length ys.length)))
            * ((xs.take (min xs.length ys.length)).getD i 0
                - meanR (xs.take (min xs.length ys.length))) :=
      Finset.sum_congr rfl (fun i _ => mul_comm _ _)
    rw [hnum, mul_comm (∑ i ∈ Finset.range (min xs.length ys.length),
        ((xs.take (min xs.length ys.length)).getD i 0
            - meanR (xs.take (min xs.length ys.length))) ^ 2)]

theorem pearson_abs_le_aux (num dx dy : ℝ) (hdx : 0 ≤ dx) (hdy : 0 ≤ dy)
    (hCS : num ^ 2 ≤ dx * dy) :
    |num / (if Real.sqrt (dx * dy) = 0 then 1 else Real.sqrt (dx * dy))| ≤ 1 := by
  by_cases hz : Real.sqrt (dx * dy) = 0
  · rw [if_pos hz]
    have hAB : dx * dy = 0 :=
      le_antisymm (Real.sqrt_eq_zero'.mp hz |>.trans_eq rfl) (mul_nonneg hdx hdy)
    have hN2 : num ^ 2 = 0 := le_antisymm (hAB ▸ hCS) (sq_nonneg num)
    have hN : num = 0 := (pow_eq_zero_iff (two_ne_zero)).mp hN2
    rw [hN]
    norm_num
  · rw [if_neg hz]
    have hpos : 0 < Real.sqrt (dx * dy) :=
      lt_of_le_of_ne (Real.sqrt_nonneg _) (Ne.symm hz)
    rw [abs_div, abs_of_pos hpos, div_le_one hpos, ← Real.sqrt_sq_eq_abs]
    exact Real.sqrt_le_sqrt hCS

theorem pearson_bounds (xs ys : List ℝ) : -1 ≤ pearson xs ys ∧ pearson xs ys ≤ 1 := by
  rw [← abs_le]
  simp only [pearson]
  by_cases h : min xs.length ys.length = 0
  · rw [if_pos h]
    norm_num
  · rw [if_neg h]
    apply pearson_abs_le_aux
    · exact Finset.sum_nonneg (fun i _ => sq_nonneg _)
    · exact Finset.sum_nonneg (fun i _ => sq_nonneg _)
    · exact Finset.sum_mul_sq_le_sq_mul_sq _ _ _

theorem pearson_const (xs ys : List ℝ) (c : ℝ) (h : ∀ a ∈ xs, a = c) :
    pearson xs ys = 0 := by
  simp only [pearson]
  by_cases h0 : min xs.length ys.length = 0
  · rw [if_pos h0]
  · rw [if_neg h0]
    set n := min xs.length ys.length with hn
    have hlen : (xs.take n).length = n := by
      rw [List.length_take]
      exact Nat.min_eq_left (Nat.min_le_left _ _)
    have hall : ∀ a ∈ xs.take n, a = c := fun a ha => h a (List.mem_of_mem_take ha)
    have hmean : meanR (xs.take n) = c := by
      unfold meanR
      have hne : ((n : ℝ)) ≠ 0 := by exact_mod_cast h0
      rw [List.sum_eq_card_nsmul _ c hall, hlen, nsmul_eq_mul, mul_comm,
        mul_div_assoc, div_self hne, mul_one]
    have hx : ∀ i ∈ Finset.range n, (xs.take n).getD i 0 - meanR (xs.take n) = 0 := by
      intro i hi
      have hi2 : i < (xs.take n).length := by rw [hlen]; exact Finset.mem_range.mp hi
      rw [List.getD_eq_getElem _ _ hi2, hmean, hall _ (List.getElem_mem hi2)]
      ring
    have hnum : (∑ i ∈ Finset.range n,
        ((xs.take n).getD i 0 - meanR (xs.take n))
          * ((ys.take n).getD i 0 - meanR (ys.take n))) = 0 :=
      Finset.sum_eq_zero (fun i hi => by rw [hx i hi, zero_mul])
    rw [hnum, zero_div]

theorem corrCell_symm (data : List Row) (ni nj : String) :
    corrCell data ni nj = corrCell data nj ni := by
  simp only [corrCell]
  rw [Nat.min_comm (seriesOf data nj).length (seriesOf data ni).length]
  by_cases h : min (seriesOf data ni).length (seriesOf data nj).length = 0
  · rw [if_pos h, if_pos h]
  · rw [if_neg h, if_neg h]
    exact pearson_symm _ _

theorem corrCell_bounds (data : List Row) (ni nj : String) :
    -1 ≤ corrCell data ni nj ∧ corrCell data ni nj ≤ 1 := by
  simp only [corrCell]
  by_cases h : min (seriesOf data ni).length (seriesOf data nj).length = 0
  · rw [if_pos h]
    norm_num
  · rw [if_neg h]
    exact pearson_bounds _ _

theorem corrEntry_eq_cell (cols : List Column) (data : List Row) (i j : ℕ)
    (hi : i < (numericNames cols data).length)
    (hj : j < (numericNames cols data).length) :
    corrEntry cols data i j
      = corrCell data ((numericNames cols data).get ⟨i, hi⟩)
          ((numericNames cols data).get ⟨j, hj⟩) := by
  simp only [corrEntry, buildCorrelationMatrix]
  have hi2 : i < ((numericNames cols data).map (fun ni =>
      (numericNames cols data).map (fun nj => corrCell data ni nj))).length := by
    simpa using hi
  rw [List.getD_eq_getElem _ _ hi2]
  rw [List.getElem_map]
  have hj2 : j < ((numericNames cols data).map
      (fun nj => corrCell data ((numericNames cols data).get ⟨i, hi⟩) nj)).length := by
    simpa using hj
  rw [List.get_eq_getElem, List.get_eq_getElem]
  rw [List.getD_eq_getElem _ _ (by simpa using hj)]
  rw [List.getElem_map]

/-- C8: the correlation matrix is symmetric, every entry lies in `[-1, 1]`
(exactly, hence within any tolerance), and a constant series yields a
Pearson value of 0 because the zero denominator is floored to 1. -/
theorem c8_correlation_properties :
    (∀ (cols : List Column) (data : List Row) (i j : ℕ),
      i < (numericNames cols data).length → j < (numericNames cols data).length →
        corrEntry cols data i j = corrEntry cols data j i ∧
        -1 ≤ corrEntry cols data i j ∧ corrEntry cols data i j ≤ 1) ∧
    (∀ (xs ys : List ℝ) (c : ℝ), (∀ a ∈ xs, a = c) → pearson xs ys = 0) := by
  constructor
  · intro cols data i j hi hj
    rw [corrEntry_eq_cell cols data i j hi hj, corrEntry_eq_cell cols data j i hj hi]
    exact ⟨corrCell_symm data _ _, corrCell_bounds data _ _⟩
  · exact pearson_const

/-- Witness for C8 at a concrete input: a one-column, five-row numeric
dataset (so the column is correlation-eligible), and a constant singleton
series. -/
theorem c8_correlation_properties_witness :
    (corrEntry [Column.mk "a" none]
        [[("a", JSVal.vnum 1)], [("a", JSVal.vnum 2)], [("a", JSVal.vnum 3)],
          [("a", JSVal.vnum 4)], [("a", JSVal.vnum 5)]] 0 0
      = corrEntry [Column.mk "a" none]
        [[("a", JSVal.vnum 1)], [("a", JSVal.vnum 2)], [("a", JSVal.vnum 3)],
          [("a", JSVal.vnum 4)], [("a", JSVal.vnum 5)]] 0 0 ∧
      -1 ≤ corrEntry [Column.mk "a" none]
        [[("a", JSVal.vnum 1)], [("a", JSVal.vnum 2)], [("a", JSVal.vnum 3)],
          [("a", JSVal.vnum 4)], [("a", JSVal.vnum 5)]] 0 0 ∧
      corrEntry [Column.mk "a" none]
        [[("a", JSVal.vnum 1)], [("a", JSVal.vnum 2)], [("a", JSVal.vnum 3)],
          [("a", JSVal.vnum 4)], [("a", JSVal.vnum 5)]] 0 0 ≤ 1) ∧
    pearson [(1 : ℝ)] [] = 0 :=
  ⟨c8_correlation_properties.1 [Column.mk "a" none]
      [[("a", JSVal.vnum 1)], [("a", JSVal.vnum 2)], [("a", JSVal.vnum 3)],
        [("a", JSVal.vnum 4)], [("a", JSVal.vnum 5)]] 0 0 (by decide) (by decide),
   c8_correlation_properties.2 [(1 : ℝ)] [] 1
     (fun a ha => List.mem_singleton.mp ha)⟩

end NIKA
